import Mathlib

/-!
# Skeletal animation sampling and pose evaluation (DX12BookCode, chapter 23)

A shallow embedding of `BoneAnimation.h` (`KeyFrame`, `Animation`) and of the
pose loop of `BoxApp::Update` / the data built by `BoxApp::BuildBoneAndAnimation`.

Conventions of the embedding:

* `float` values are rational numbers. The sampling code of `BoneAnimation.h` is embedded
  twice over `ℚ`: once with every operation exact (`GetLastTime`, `advance`, `leftIndex`,
  `lerpParam`, `sampleAt`, `GetLerpKeyFrame`), and once with a rounding `fl` applied after
  every scalar operation of lines 65 and 73-80 (the same names with the suffix `Rounded`);
  `roundBinary32` is the rounding of the source's `float`. The matrix code is embedded over
  an arbitrary field so that the values `sin (π/4) = cos (π/4)` can be supplied exactly.
* `std::vector` is a `List`; `operator[]` outside the vector, and a read of a
  stack array entry that was never written, is undefined behaviour in the
  source and is `none` here.
* `int` is `ℤ`: for a cursor in `[0, lastTime]` the truncated quotient is at
  most the keyframe count, so no 32-bit wrap-around is involved.
* DirectXMath functions are embedded from their documented formulas;
  `XMQuaternionSlerp` is a parameter of the sampling function.
-/

namespace BoneAnimation

/-! ## DirectXMath vectors -/

/-- Four-component vector `XMVECTOR`. -/
structure XMVECTOR (α : Type) where
  x : α
  y : α
  z : α
  w : α
deriving DecidableEq

/-- DirectXMath `XMVectorSet(x, y, z, w)`. -/
def XMVectorSet {α : Type} (x y z w : α) : XMVECTOR α := ⟨x, y, z, w⟩

/-- DirectXMath `XMVectorLerp(V0, V1, t)`: `V0 + t * (V1 - V0)` in every component. -/
def XMVectorLerp {α : Type} [Add α] [Sub α] [Mul α] (V0 V1 : XMVECTOR α) (t : α) : XMVECTOR α :=
  ⟨V0.x + t * (V1.x - V0.x), V0.y + t * (V1.y - V0.y),
   V0.z + t * (V1.z - V0.z), V0.w + t * (V1.w - V0.w)⟩

/-! ## `BoneAnimation.h` -/

/-- Source `struct KeyFrame`: per-bone translations and rotation quaternions. -/
structure KeyFrame (α : Type) where
  Translation : List (XMVECTOR α)
  Quaternion : List (XMVECTOR α)
deriving DecidableEq

/-- Source `class Animation`: the keyframes, the play-time cursor and the interval. -/
structure Animation where
  KeyFrames : List (KeyFrame ℚ)
  PlayTime : ℚ
  Interval : ℚ
deriving DecidableEq

/-- Constructor `Animation(float interval)`: no keyframes, cursor `0`. -/
def Animation.create (interval : ℚ) : Animation := ⟨[], 0, interval⟩

/-- Method `Animation::AddKey`: `KeyFrames.push_back(key)`. -/
def Animation.AddKey (a : Animation) (key : KeyFrame ℚ) : Animation :=
  { a with KeyFrames := a.KeyFrames ++ [key] }

/-- Method `Animation::GetLastTime`: `(KeyFrames.size() - 1) * Interval` for a non-empty
clip (the subtraction is done on the unsigned size), `0` for an empty one. -/
def Animation.GetLastTime (a : Animation) : ℚ :=
  if a.KeyFrames.length ≠ 0 then ((a.KeyFrames.length - 1 : ℕ) : ℚ) * a.Interval else 0

/-- The C conversion `(int) x` of a float: truncation toward zero. -/
def truncToInt (x : ℚ) : ℤ := if 0 ≤ x then ⌊x⌋ else ⌈x⌉

/-- Read `v[i]` of a vector with an `int` index: a negative index converts to a huge
unsigned one, so it is out of range like an index `≥ size`. -/
def getAt {β : Type} (v : List β) (i : ℤ) : Option β :=
  if i < 0 then none else v[i.toNat]?

/-- Lines 73-77 of `GetLerpKeyFrame`: the cursor after `PlayTime += deltaTime` and the
reset to `0` when it exceeds `GetLastTime()`. -/
def Animation.advance (a : Animation) (deltaTime : ℚ) : ℚ :=
  if a.PlayTime + deltaTime > a.GetLastTime then 0 else a.PlayTime + deltaTime

/-- Line 79, `int leftI = (int)(PlayTime / Interval)`, with an exact quotient (see
`leftIndexRounded` for the rounded one). -/
def leftIndex (playTime interval : ℚ) : ℤ := truncToInt (playTime / interval)

/-- Line 80, `float t = (PlayTime - leftI * Interval) / Interval`, with exact operations
(see `lerpParamRounded` for the rounded ones). -/
def lerpParam (playTime interval : ℚ) : ℚ :=
  (playTime - (leftIndex playTime interval : ℚ) * interval) / interval

/-- Body of the loop of `GetLerpKeyFrame` (lines 86-87) for bone `i`: both keyframes
`KeyFrames[leftI]` and `KeyFrames[leftI + 1]` and their `i`-th entries are read. -/
def lerpBone (slerp : XMVECTOR ℚ → XMVECTOR ℚ → ℚ → XMVECTOR ℚ)
    (keys : List (KeyFrame ℚ)) (leftI : ℤ) (t : ℚ) (i : ℕ) :
    Option (XMVECTOR ℚ × XMVECTOR ℚ) := do
  let l ← getAt keys leftI
  let r ← getAt keys (leftI + 1)
  let lt ← l.Translation[i]?
  let rt ← r.Translation[i]?
  let lq ← l.Quaternion[i]?
  let rq ← r.Quaternion[i]?
  pure (XMVectorLerp lt rt t, slerp lq rq t)

/-- The loop `for (int i = 0; i < count; ++i)` of `GetLerpKeyFrame` (lines 84-90):
`n` iterations remain, `i` is the loop variable, `output` the keyframe built so far. -/
def lerpLoop (body : ℕ → Option (XMVECTOR ℚ × XMVECTOR ℚ)) :
    ℕ → ℕ → KeyFrame ℚ → Option (KeyFrame ℚ)
  | 0, _, output => some output
  | n + 1, i, output =>
    match body i with
    | none => none
    | some (tra, rot) =>
      lerpLoop body n (i + 1) ⟨output.Translation ++ [tra], output.Quaternion ++ [rot]⟩

/-- Lines 79-92 of `GetLerpKeyFrame`, for the cursor value `playTime` left by lines
73-77. A zero `Interval` makes the quotient of line 79 non-finite and its conversion to
`int` undefined; `count` is read from `KeyFrames[0]` (line 81). -/
def sampleAt (slerp : XMVECTOR ℚ → XMVECTOR ℚ → ℚ → XMVECTOR ℚ)
    (keys : List (KeyFrame ℚ)) (interval playTime : ℚ) : Option (KeyFrame ℚ) :=
  if interval = 0 then none
  else
    match keys[0]? with
    | none => none
    | some k0 =>
      lerpLoop (lerpBone slerp keys (leftIndex playTime interval) (lerpParam playTime interval))
        k0.Translation.length 0 ⟨[], []⟩

/-- Method `Animation::GetLerpKeyFrame(deltaTime)`: the clip with its updated cursor,
and the interpolated keyframe (`none` when the source reads out of range). -/
def Animation.GetLerpKeyFrame (slerp : XMVECTOR ℚ → XMVECTOR ℚ → ℚ → XMVECTOR ℚ)
    (a : Animation) (deltaTime : ℚ) : Animation × Option (KeyFrame ℚ) :=
  ({ a with PlayTime := a.advance deltaTime },
   sampleAt slerp a.KeyFrames a.Interval (a.advance deltaTime))

/-- Type `XMMATRIX`: a 4x4 matrix; row `3` holds the translation. -/
abbrev XMMATRIX (α : Type) := Matrix (Fin 4) (Fin 4) α

/-- DirectXMath `XMMatrixIdentity()`. -/
def XMMatrixIdentity {α : Type} [Field α] : XMMATRIX α := 1

/-- DirectXMath `XMMatrixMultiply(M1, M2)`: the matrix product `M1 * M2`. -/
def XMMatrixMultiply {α : Type} [Field α] (M1 M2 : XMMATRIX α) : XMMATRIX α := M1 * M2

/-- DirectXMath `XMMatrixTranspose(M)`. -/
def XMMatrixTranspose {α : Type} (M : XMMATRIX α) : XMMATRIX α := M.transpose

/-- DirectXMath `XMMatrixDeterminant(M)`. -/
def XMMatrixDeterminant {α : Type} [Field α] (M : XMMATRIX α) : α := M.det

/-- DirectXMath `XMMatrixInverse(&det, M)`: the adjugate divided by the determinant
(the source only inverts matrices of determinant `1`). -/
def XMMatrixInverse {α : Type} [Field α] (M : XMMATRIX α) : XMMATRIX α :=
  (XMMatrixDeterminant M)⁻¹ • M.adjugate

/-- DirectXMath `XMMatrixTranslation(x, y, z)`. -/
def XMMatrixTranslation {α : Type} [Field α] (x y z : α) : XMMATRIX α :=
  !![1, 0, 0, 0;
     0, 1, 0, 0;
     0, 0, 1, 0;
     x, y, z, 1]

/-- DirectXMath `XMMatrixTranslationFromVector(Offset)`: the `w` of `Offset` is not used. -/
def XMMatrixTranslationFromVector {α : Type} [Field α] (Offset : XMVECTOR α) : XMMATRIX α :=
  !![1, 0, 0, 0;
     0, 1, 0, 0;
     0, 0, 1, 0;
     Offset.x, Offset.y, Offset.z, 1]

/-- DirectXMath `XMMatrixRotationQuaternion(Quaternion)`. -/
def XMMatrixRotationQuaternion {α : Type} [Field α] (q : XMVECTOR α) : XMMATRIX α :=
  !![1 - 2 * q.y * q.y - 2 * q.z * q.z, 2 * q.x * q.y + 2 * q.z * q.w,
       2 * q.x * q.z - 2 * q.y * q.w, 0;
     2 * q.x * q.y - 2 * q.z * q.w, 1 - 2 * q.x * q.x - 2 * q.z * q.z,
       2 * q.y * q.z + 2 * q.x * q.w, 0;
     2 * q.x * q.z + 2 * q.y * q.w, 2 * q.y * q.z - 2 * q.x * q.w,
       1 - 2 * q.x * q.x - 2 * q.y * q.y, 0;
     0, 0, 0, 1]

/-- An angle given exactly, by the sine and the cosine of its half. -/
structure Angle (α : Type) where
  sinHalf : α
  cosHalf : α

/-- Sine of the angle, by the double-angle formula. -/
def Angle.sin {α : Type} [Field α] (a : Angle α) : α := 2 * a.sinHalf * a.cosHalf

/-- Cosine of the angle, by the double-angle formula. -/
def Angle.cos {α : Type} [Field α] (a : Angle α) : α :=
  a.cosHalf * a.cosHalf - a.sinHalf * a.sinHalf

/-- The angle `0`. -/
def Angle.zero {α : Type} [Field α] : Angle α := ⟨0, 1⟩

/-- The opposite angle. -/
def Angle.neg {α : Type} [Field α] (a : Angle α) : Angle α := ⟨-a.sinHalf, a.cosHalf⟩

/-- The angle `MathHelper::Pi * 0.5f` taken exactly, `r` being `sin (π/4) = cos (π/4)`
(so `2 * r * r = 1`). -/
def Angle.quarterTurn {α : Type} (r : α) : Angle α := ⟨r, r⟩

/-- DirectXMath `XMMatrixRotationZ(Angle)`. -/
def XMMatrixRotationZ {α : Type} [Field α] (a : Angle α) : XMMATRIX α :=
  !![a.cos, a.sin, 0, 0;
     -a.sin, a.cos, 0, 0;
     0, 0, 1, 0;
     0, 0, 0, 1]

/-- DirectXMath `XMQuaternionRotationRollPitchYaw(Pitch, Yaw, Roll)`. -/
def XMQuaternionRotationRollPitchYaw {α : Type} [Field α] (Pitch Yaw Roll : Angle α) :
    XMVECTOR α :=
  ⟨Roll.cosHalf * Pitch.sinHalf * Yaw.cosHalf + Roll.sinHalf * Pitch.cosHalf * Yaw.sinHalf,
   Roll.cosHalf * Pitch.cosHalf * Yaw.sinHalf - Roll.sinHalf * Pitch.sinHalf * Yaw.cosHalf,
   Roll.sinHalf * Pitch.cosHalf * Yaw.cosHalf - Roll.cosHalf * Pitch.sinHalf * Yaw.sinHalf,
   Roll.cosHalf * Pitch.cosHalf * Yaw.cosHalf + Roll.sinHalf * Pitch.sinHalf * Yaw.sinHalf⟩

/-- DirectXMath `XMQuaternionIdentity()`. -/
def XMQuaternionIdentity {α : Type} [Field α] : XMVECTOR α := ⟨0, 0, 0, 1⟩

/-! ## Skeleton and pose loop -/

/-- Source `struct Bone`. -/
structure Bone (α : Type) where
  Offset : XMMATRIX α

/-- Source `struct Skeleton`. -/
structure Skeleton (α : Type) where
  Bones : List (Bone α)
  ParentBoneIndex : List ℤ

/-- Method `KeyFrame::ToParent(i)`:
`XMMatrixMultiply(XMMatrixRotationQuaternion(Quaternion[i]),
XMMatrixTranslationFromVector(Translation[i]))`. -/
def KeyFrame.ToParent {α : Type} [Field α] (k : KeyFrame α) (i : ℕ) : Option (XMMATRIX α) := do
  let q ← k.Quaternion[i]?
  let t ← k.Translation[i]?
  pure (XMMatrixMultiply (XMMatrixRotationQuaternion q) (XMMatrixTranslationFromVector t))

/-- Body of the loop of `BoxApp::Update` (lines 202-208) for bone `i`; `ToRoot` holds the
entries `0 .. i-1` written so far. Returns the new `ToRoot[i]` and `final[i]`. -/
def poseStep {α : Type} [Field α] (skel : Skeleton α) (keyFrame : KeyFrame α) (i : ℕ)
    (ToRoot : List (XMMATRIX α)) : Option (XMMATRIX α × XMMATRIX α) := do
  let parent ← skel.ParentBoneIndex[i]?
  let toRoot ←
    if i = 0 then keyFrame.ToParent 0
    else do
      let toParent ← keyFrame.ToParent i
      let up ← getAt ToRoot parent
      pure (XMMatrixMultiply toParent up)
  let bone ← skel.Bones[i]?
  pure (toRoot, XMMatrixTranspose (XMMatrixMultiply bone.Offset toRoot))

/-- The loop `for (int i = 0; i < 5; ++i)` of `BoxApp::Update` (lines 200-210) with `n`
iterations remaining: the arrays `ToRoot` and `final` as filled so far. -/
def poseLoop {α : Type} [Field α] (skel : Skeleton α) (keyFrame : KeyFrame α) :
    ℕ → ℕ → List (XMMATRIX α) → List (XMMATRIX α) →
      Option (List (XMMATRIX α) × List (XMMATRIX α))
  | 0, _, ToRoot, final => some (ToRoot, final)
  | n + 1, i, ToRoot, final =>
    match poseStep skel keyFrame i ToRoot with
    | none => none
    | some (toRoot, fin) => poseLoop skel keyFrame n (i + 1) (ToRoot ++ [toRoot]) (final ++ [fin])

/-- Lines 197-210 of `BoxApp::Update`: the arrays `(ToRoot, final)` of the five bones for
the keyframe returned by `GetLerpKeyFrame`. -/
def UpdatePose {α : Type} [Field α] (skel : Skeleton α) (keyFrame : KeyFrame α) :
    Option (List (XMMATRIX α) × List (XMMATRIX α)) :=
  poseLoop skel keyFrame 5 0 [] []

/-- Lines 196-210 of `BoxApp::Update`: the clip is sampled with the frame's `DeltaTime` and
the pose loop runs on the sampled keyframe (the camera and constant-buffer code around it
is not part of the embedding). -/
def BoxApp.Update (slerp : XMVECTOR ℚ → XMVECTOR ℚ → ℚ → XMVECTOR ℚ) (skel : Skeleton ℚ)
    (anim : Animation) (deltaTime : ℚ) :
    Animation × Option (List (XMMATRIX ℚ) × List (XMMATRIX ℚ)) :=
  ((anim.GetLerpKeyFrame slerp deltaTime).1,
   (anim.GetLerpKeyFrame slerp deltaTime).2.bind (UpdatePose skel))

/-! ## `BoxApp::BuildBoneAndAnimation` -/

/-- A bone whose offset is the inverse of the bind matrix `translation` (lines 484-512). -/
def boneOfBind {α : Type} [Field α] (translation : XMMATRIX α) : Bone α :=
  ⟨XMMatrixInverse translation⟩

/-- The skeleton built by `BuildBoneAndAnimation` (lines 483-512); `r` is
`sin (π/4) = cos (π/4)`. -/
def buildSkeleton {α : Type} [Field α] (r : α) : Skeleton α where
  Bones :=
    [boneOfBind XMMatrixIdentity,
     boneOfBind (XMMatrixMultiply (XMMatrixRotationZ (Angle.quarterTurn r))
       (XMMatrixTranslation 0 1 0)),
     boneOfBind (XMMatrixMultiply (XMMatrixRotationZ (Angle.quarterTurn r).neg)
       (XMMatrixTranslation 0 1 0)),
     boneOfBind (XMMatrixTranslation (-1) 1 0),
     boneOfBind (XMMatrixTranslation 1 1 0)]
  ParentBoneIndex := [-1, 0, 0, 1, 2]

/-- The rest-pose keyframe `key[0]` of `BuildBoneAndAnimation` (lines 518-527). -/
def key0 {α : Type} [Field α] (r : α) : KeyFrame α where
  Translation :=
    [XMVectorSet 0 0 0 1, XMVectorSet 0 1 0 1, XMVectorSet 0 1 0 1, XMVectorSet 0 1 0 1,
     XMVectorSet 0 1 0 1]
  Quaternion :=
    [XMQuaternionIdentity,
     XMQuaternionRotationRollPitchYaw Angle.zero Angle.zero (Angle.quarterTurn r),
     XMQuaternionRotationRollPitchYaw Angle.zero Angle.zero (Angle.quarterTurn r).neg,
     XMQuaternionRotationRollPitchYaw Angle.zero Angle.zero (Angle.quarterTurn r).neg,
     XMQuaternionRotationRollPitchYaw Angle.zero Angle.zero (Angle.quarterTurn r)]

/-! ## Sample inputs -/

/-- A one-bone keyframe: translation `(0, 0, 0)`, identity rotation. -/
def keyA : KeyFrame ℚ := ⟨[XMVectorSet 0 0 0 1], [XMQuaternionIdentity]⟩

/-- A one-bone keyframe: translation `(2, 4, 6)`, half turn about Z. -/
def keyB : KeyFrame ℚ := ⟨[XMVectorSet 2 4 6 1], [XMVectorSet 0 0 1 0]⟩

/-- A fresh clip `Animation(1)` holding the single keyframe `keyA`. -/
def clipOneKey : Animation := (Animation.create 1).AddKey keyA

/-- A fresh clip `Animation(1)` holding `keyA`, `keyB`. -/
def clipTwoKeys : Animation := ((Animation.create 1).AddKey keyA).AddKey keyB

/-- The clip `clipTwoKeys` with its cursor at `p`, as left by earlier calls. -/
def clipTwoKeysAt (p : ℚ) : Animation := ⟨[keyA, keyB], p, 1⟩

/-- A fresh clip `Animation(1/2)` holding `keyA`, `keyB`, `keyA`. -/
def clipThreeKeys : Animation :=
  (((Animation.create (1 / 2)).AddKey keyA).AddKey keyB).AddKey keyA

/-- A skeleton with the parent indices of the source, `[-1, 0, 0, 1, 2]`, and identity
offsets. -/
def chainSkeleton : Skeleton ℚ :=
  ⟨[⟨XMMatrixIdentity⟩, ⟨XMMatrixIdentity⟩, ⟨XMMatrixIdentity⟩, ⟨XMMatrixIdentity⟩,
    ⟨XMMatrixIdentity⟩], [-1, 0, 0, 1, 2]⟩

/-- The skeleton `chainSkeleton` with bone `4` marked as a second root. -/
def twoRootSkeleton : Skeleton ℚ :=
  ⟨[⟨XMMatrixIdentity⟩, ⟨XMMatrixIdentity⟩, ⟨XMMatrixIdentity⟩, ⟨XMMatrixIdentity⟩,
    ⟨XMMatrixIdentity⟩], [-1, 0, 0, 1, -1]⟩

/-- A five-bone pose: bone `0` is turned by a half turn about Z, every other bone is
translated by `(1, 0, 0)` without rotation. -/
def chainPose : KeyFrame ℚ :=
  ⟨[XMVectorSet 0 0 0 1, XMVectorSet 1 0 0 1, XMVectorSet 1 0 0 1, XMVectorSet 1 0 0 1,
    XMVectorSet 1 0 0 1],
   [XMVectorSet 0 0 1 0, XMQuaternionIdentity, XMQuaternionIdentity, XMQuaternionIdentity,
    XMQuaternionIdentity]⟩

/-! ## Binary32 rounding, and `GetLerpKeyFrame` with rounded scalar arithmetic

The definitions above evaluate lines 73-80 without rounding. The definitions of this
section evaluate the same lines with every `float` operation followed by a rounding
`fl`; with `fl = id` they are the definitions above, with `fl = roundBinary32` they are
the source's binary32 arithmetic. The rounding inside `XMVectorLerp` only changes the
last bit of the returned components and is not part of them. -/

/-- The integer nearest to `y`, the even one of the two when `y` is half-way. -/
def roundHalfEven (y : ℚ) : ℤ :=
  if y - ⌊y⌋ < 1 / 2 then ⌊y⌋
  else if 1 / 2 < y - ⌊y⌋ then ⌊y⌋ + 1
  else if ⌊y⌋ % 2 = 0 then ⌊y⌋ else ⌊y⌋ + 1

/-- The binary32 (`float`) number nearest to `x`, ties to even: 24 significant bits, least
exponent `-126` (below `2 ^ (-126)` the spacing stays `2 ^ (-149)`). Overflow to infinity,
at magnitudes from `2 ^ 128` on, is not represented. -/
def roundBinary32 (x : ℚ) : ℚ :=
  if x = 0 then 0
  else
    (roundHalfEven (x / 2 ^ (max (Int.log 2 |x|) (-126) - 23)) : ℚ) *
      2 ^ (max (Int.log 2 |x|) (-126) - 23)

/-- Method `Animation::GetLastTime` with rounding: the size `KeyFrames.size() - 1` is
converted to `float`, then multiplied by `Interval`. -/
def Animation.GetLastTimeRounded (fl : ℚ → ℚ) (a : Animation) : ℚ :=
  if a.KeyFrames.length ≠ 0 then fl (fl ((a.KeyFrames.length - 1 : ℕ) : ℚ) * a.Interval) else 0

/-- Lines 73-77 with rounding: `PlayTime += deltaTime` stores the rounded sum, which is
compared with `GetLastTime()`. -/
def Animation.advanceRounded (fl : ℚ → ℚ) (a : Animation) (deltaTime : ℚ) : ℚ :=
  if fl (a.PlayTime + deltaTime) > a.GetLastTimeRounded fl then 0
  else fl (a.PlayTime + deltaTime)

/-- Line 79 with rounding: the quotient `PlayTime / Interval` is rounded to `float`, then
truncated by the conversion to `int`. -/
def leftIndexRounded (fl : ℚ → ℚ) (playTime interval : ℚ) : ℤ :=
  truncToInt (fl (playTime / interval))

/-- Line 80 with rounding: `leftI` is converted to `float`; the product, the difference and
the quotient are each rounded. -/
def lerpParamRounded (fl : ℚ → ℚ) (playTime interval : ℚ) : ℚ :=
  fl (fl (playTime - fl (fl (leftIndexRounded fl playTime interval : ℚ) * interval)) / interval)

/-- Lines 79-92 with rounding, for the cursor value `playTime` left by lines 73-77. -/
def sampleAtRounded (fl : ℚ → ℚ) (slerp : XMVECTOR ℚ → XMVECTOR ℚ → ℚ → XMVECTOR ℚ)
    (keys : List (KeyFrame ℚ)) (interval playTime : ℚ) : Option (KeyFrame ℚ) :=
  if interval = 0 then none
  else
    match keys[0]? with
    | none => none
    | some k0 =>
      lerpLoop (lerpBone slerp keys (leftIndexRounded fl playTime interval)
          (lerpParamRounded fl playTime interval))
        k0.Translation.length 0 ⟨[], []⟩

/-- Method `Animation::GetLerpKeyFrame(deltaTime)` with rounding `fl` of the scalar
arithmetic of lines 65 and 73-80. -/
def Animation.GetLerpKeyFrameRounded (fl : ℚ → ℚ)
    (slerp : XMVECTOR ℚ → XMVECTOR ℚ → ℚ → XMVECTOR ℚ) (a : Animation) (deltaTime : ℚ) :
    Animation × Option (KeyFrame ℚ) :=
  ({ a with PlayTime := a.advanceRounded fl deltaTime },
   sampleAtRounded fl slerp a.KeyFrames a.Interval (a.advanceRounded fl deltaTime))

theorem getAt_natCast {β : Type} (v : List β) (n : ℕ) : getAt v (n : ℤ) = v[n]? := by
  simp [getAt]

theorem getAt_natCast_succ {β : Type} (v : List β) (n : ℕ) :
    getAt v ((n : ℤ) + 1) = v[n + 1]? := by
  have h : ((n : ℤ) + 1) = ((n + 1 : ℕ) : ℤ) := by push_cast; rfl
  rw [h, getAt_natCast]

theorem truncToInt_of_nonneg {x : ℚ} (hx : 0 ≤ x) : truncToInt x = ⌊x⌋ := by
  simp [truncToInt, hx]

theorem lerpLoop_spec (body : ℕ → Option (XMVECTOR ℚ × XMVECTOR ℚ)) :
    ∀ (n i : ℕ) (output : KeyFrame ℚ), output.Translation.length = i →
      output.Quaternion.length = i →
      (∀ j, i ≤ j → j < i + n → (body j).isSome = true) →
      ∃ res, lerpLoop body n i output = some res ∧
        res.Translation.length = i + n ∧ res.Quaternion.length = i + n ∧
        (∀ j, j < i → res.Translation[j]? = output.Translation[j]? ∧
          res.Quaternion[j]? = output.Quaternion[j]?) ∧
        (∀ j v q, i ≤ j → j < i + n → body j = some (v, q) →
          res.Translation[j]? = some v ∧ res.Quaternion[j]? = some q) := by
  intro n
  induction n with
  | zero =>
    intro i output hT hQ _
    refine ⟨output, rfl, by simpa using hT, by simpa using hQ, fun j _ => ⟨rfl, rfl⟩, ?_⟩
    intro j v q h1 h2
    omega
  | succ n ih =>
    intro i output hT hQ hbody
    have hi := hbody i (le_refl i) (by omega)
    obtain ⟨⟨tra, rot⟩, hb⟩ := Option.isSome_iff_exists.mp hi
    obtain ⟨res, hres, hlT, hlQ, hpre, hnew⟩ :=
      ih (i + 1) ⟨output.Translation ++ [tra], output.Quaternion ++ [rot]⟩
        (by simp [hT]) (by simp [hQ]) (fun j h1 h2 => hbody j (by omega) (by omega))
    refine ⟨res, ?_, by omega, by omega, ?_, ?_⟩
    · simp only [lerpLoop, hb]; exact hres
    · intro j hj
      obtain ⟨h1, h2⟩ := hpre j (by omega)
      constructor
      · rw [h1]; exact List.getElem?_append_left (by simp [hT]; exact hj)
      · rw [h2]; exact List.getElem?_append_left (by simp [hQ]; exact hj)
    · intro j v q h1 h2 hbj
      rcases Nat.eq_or_lt_of_le h1 with h | h
      · subst h
        rw [hb] at hbj
        obtain ⟨h3, h4⟩ := hpre i (by omega)
        simp only [Option.some.injEq, Prod.mk.injEq] at hbj
        obtain ⟨rfl, rfl⟩ := hbj
        constructor
        · rw [h3]; simp [← hT]
        · rw [h4]; simp [← hQ]
      · exact hnew j v q (by omega) (by omega) hbj

theorem lerpBone_eq (slerp : XMVECTOR ℚ → XMVECTOR ℚ → ℚ → XMVECTOR ℚ)
    (keys : List (KeyFrame ℚ)) (s : ℕ) (t : ℚ) (i : ℕ) (k0 k1 : KeyFrame ℚ)
    (v0 v1 q0 q1 : XMVECTOR ℚ) (h0 : keys[s]? = some k0) (h1 : keys[s + 1]? = some k1)
    (hv0 : k0.Translation[i]? = some v0) (hv1 : k1.Translation[i]? = some v1)
    (hq0 : k0.Quaternion[i]? = some q0) (hq1 : k1.Quaternion[i]? = some q1) :
    lerpBone slerp keys (s : ℤ) t i = some (XMVectorLerp v0 v1 t, slerp q0 q1 t) := by
  simp [lerpBone, getAt_natCast, getAt_natCast_succ, h0, h1, hv0, hv1, hq0, hq1]


/-- C1 (evaluation at the failing input): for the fresh one-keyframe clip `clipOneKey`
(interval `1`, one bone) sampled with `deltaTime = 0`, the cursor stays `0`, `leftI` is `0`,
and the loop body reads `KeyFrames[leftI + 1] = KeyFrames[1]`, which is outside the
one-element vector: no pose is produced. -/
theorem C1_single_keyframe_reads_index_one :
    clipOneKey.KeyFrames.length = 1 ∧ clipOneKey.advance 0 = 0 ∧ leftIndex 0 1 = 0 ∧
      getAt clipOneKey.KeyFrames (leftIndex 0 1 + 1) = none ∧
      ∀ slerp, (clipOneKey.GetLerpKeyFrame slerp 0).2 = none := by
  have hadv : clipOneKey.advance 0 = 0 := by
    simp [Animation.advance, Animation.GetLastTime, clipOneKey, Animation.AddKey, Animation.create]
  have hleft : leftIndex 0 1 = 0 := by simp [leftIndex, truncToInt]
  refine ⟨rfl, hadv, hleft, ?_, ?_⟩
  · rw [hleft]; rfl
  · intro slerp
    simp only [Animation.GetLerpKeyFrame, hadv]
    simp [sampleAt, clipOneKey, Animation.AddKey, Animation.create, keyA, lerpLoop, lerpBone,
      hleft, getAt]

/-- C2 (evaluation at the failing input): for the fresh two-keyframe clip `clipTwoKeys`
(interval `1`, so `lastTime = 1`) sampled with `deltaTime = 1`, the cursor `1` lies in
`[0, lastTime]` and is not reset, `leftI = 1 = K - 1` exceeds `K - 2 = 0`, and
`KeyFrames[leftI + 1] = KeyFrames[2]` is out of range. -/
theorem C2_left_index_reaches_last_keyframe :
    clipTwoKeys.KeyFrames.length = 2 ∧ clipTwoKeys.GetLastTime = 1 ∧
      clipTwoKeys.advance 1 = 1 ∧
      leftIndex (clipTwoKeys.advance 1) clipTwoKeys.Interval = 1 ∧
      ¬ (leftIndex (clipTwoKeys.advance 1) clipTwoKeys.Interval ≤ 2 - 2) ∧
      getAt clipTwoKeys.KeyFrames
        (leftIndex (clipTwoKeys.advance 1) clipTwoKeys.Interval + 1) = none ∧
      ∀ slerp, (clipTwoKeys.GetLerpKeyFrame slerp 1).2 = none := by
  have hlast : clipTwoKeys.GetLastTime = 1 := by
    simp [Animation.GetLastTime, clipTwoKeys, Animation.AddKey, Animation.create]
  have hadv : clipTwoKeys.advance 1 = 1 := by
    have hp : clipTwoKeys.PlayTime = 0 := rfl
    rw [Animation.advance, hlast, hp]
    norm_num
  have hI : clipTwoKeys.Interval = 1 := rfl
  have hleft : leftIndex 1 1 = 1 := by simp [leftIndex, truncToInt]
  refine ⟨rfl, hlast, hadv, ?_, ?_, ?_, ?_⟩
  · rw [hadv, hI, hleft]
  · rw [hadv, hI, hleft]; decide
  · rw [hadv, hI, hleft]; rfl
  · intro slerp
    simp only [Animation.GetLerpKeyFrame, hadv, hI]
    simp [sampleAt, hleft, clipTwoKeys, Animation.AddKey, Animation.create, keyA, keyB,
      lerpLoop, lerpBone, getAt]

/-- C4 (evaluation at the failing input): the fresh three-keyframe clip `clipThreeKeys`
(interval `1/2`, `lastTime = 1`) sampled with `deltaTime = lastTime` ends with the cursor
exactly `lastTime`, `leftI = 2 = K - 1`, and the read of `KeyFrames[3]` is out of range:
the call produces no pose, in particular not the last keyframe. -/
theorem C4_sample_at_last_time_reads_past_end :
    clipThreeKeys.KeyFrames.length = 3 ∧ clipThreeKeys.GetLastTime = 1 ∧
      ∀ slerp, (clipThreeKeys.GetLerpKeyFrame slerp 1).1.PlayTime = 1 ∧
        leftIndex 1 (1 / 2) = 2 ∧
        (clipThreeKeys.GetLerpKeyFrame slerp 1).2 = none := by
  have hlast : clipThreeKeys.GetLastTime = 1 := by
    norm_num [Animation.GetLastTime, clipThreeKeys, Animation.AddKey, Animation.create]
  have hadv : clipThreeKeys.advance 1 = 1 := by
    have hp : clipThreeKeys.PlayTime = 0 := rfl
    rw [Animation.advance, hlast, hp]
    norm_num
  have hleft : leftIndex 1 (1 / 2) = 2 := by
    have h2 : (1 : ℚ) / (1 / 2) = ((2 : ℤ) : ℚ) := by norm_num
    rw [leftIndex, h2, truncToInt_of_nonneg (by norm_num), Int.floor_intCast]
  refine ⟨rfl, hlast, fun slerp => ⟨hadv, hleft, ?_⟩⟩
  simp only [Animation.GetLerpKeyFrame, hadv]
  have hI : clipThreeKeys.Interval = 1 / 2 := rfl
  have hleft2 : leftIndex 1 (2⁻¹ : ℚ) = 2 := by rw [← one_div]; exact hleft
  simp [sampleAt, hI, hleft2, clipThreeKeys, Animation.AddKey, Animation.create, keyA, keyB,
    lerpLoop, lerpBone, getAt]

theorem roundHalfEven_intCast (n : ℤ) : roundHalfEven (n : ℚ) = n := by
  simp [roundHalfEven]

theorem roundBinary32_zero : roundBinary32 0 = 0 := by
  simp [roundBinary32]

/-- Evaluation of `roundBinary32` at a number of known binade `[2 ^ e, 2 ^ (e + 1))`. -/
theorem roundBinary32_eval (x : ℚ) (e n : ℤ) (hx : x ≠ 0) (hlo : (2 : ℚ) ^ e ≤ |x|)
    (hhi : |x| < (2 : ℚ) ^ (e + 1)) (hmin : -126 ≤ e)
    (hn : roundHalfEven (x / 2 ^ (e - 23)) = n) :
    roundBinary32 x = (n : ℚ) * 2 ^ (e - 23) := by
  have hpos : 0 < |x| := abs_pos.mpr hx
  have hlog : Int.log 2 |x| = e := by
    apply le_antisymm
    · have h := (Int.lt_zpow_iff_log_lt (by norm_num : 1 < 2) hpos).mp
        (by exact_mod_cast hhi : |x| < ((2 : ℕ) : ℚ) ^ (e + 1))
      omega
    · exact (Int.zpow_le_iff_le_log (by norm_num : 1 < 2) hpos).mp
        (by exact_mod_cast hlo : ((2 : ℕ) : ℚ) ^ e ≤ |x|)
  rw [roundBinary32, if_neg hx, hlog, max_eq_left hmin, hn]

/-- A number `m * 2 ^ (e - 23)` with a 24-bit integer `m` is a binary32 number. -/
theorem roundBinary32_of_significand (x : ℚ) (m e : ℤ) (hm1 : 2 ^ 23 ≤ |m|) (hm2 : |m| < 2 ^ 24)
    (hmin : -126 ≤ e) (hx : x = (m : ℚ) * 2 ^ (e - 23)) : roundBinary32 x = x := by
  have h2 : (0 : ℚ) < 2 ^ (e - 23) := zpow_pos (by norm_num) _
  have hm0 : m ≠ 0 := by
    intro h
    rw [h] at hm1
    norm_num at hm1
  have hx0 : x ≠ 0 := by
    rw [hx]
    exact mul_ne_zero (by exact_mod_cast hm0) h2.ne.symm
  have habs : |x| = (|m| : ℚ) * 2 ^ (e - 23) := by
    rw [hx, abs_mul, abs_of_pos h2]
  have hsplit : (2 : ℚ) ^ e = 2 ^ (23 : ℤ) * 2 ^ (e - 23) := by
    rw [← zpow_add₀ (by norm_num : (2 : ℚ) ≠ 0)]
    congr 1
    ring
  have hsplit2 : (2 : ℚ) ^ (e + 1) = 2 ^ (24 : ℤ) * 2 ^ (e - 23) := by
    rw [← zpow_add₀ (by norm_num : (2 : ℚ) ≠ 0)]
    congr 1
    ring
  have hq : x / 2 ^ (e - 23) = (m : ℚ) := by
    rw [hx]
    field_simp
  have hm1q : (2 : ℚ) ^ (23 : ℤ) ≤ (|m| : ℚ) := by
    have h : ((2 ^ 23 : ℤ) : ℚ) ≤ ((|m| : ℤ) : ℚ) := Int.cast_le.mpr hm1
    rw [Int.cast_abs] at h
    norm_num at h ⊢
    exact h
  have hm2q : (|m| : ℚ) < (2 : ℚ) ^ (24 : ℤ) := by
    have h : ((|m| : ℤ) : ℚ) < ((2 ^ 24 : ℤ) : ℚ) := Int.cast_lt.mpr hm2
    rw [Int.cast_abs] at h
    norm_num at h ⊢
    exact h
  rw [roundBinary32_eval x e m hx0
    (by rw [habs, hsplit]; exact mul_le_mul_of_nonneg_right hm1q h2.le)
    (by rw [habs, hsplit2]; exact mul_lt_mul_of_pos_right hm2q h2) hmin
    (by rw [hq]; exact roundHalfEven_intCast m), hx]

theorem roundBinary32_one : roundBinary32 1 = 1 :=
  roundBinary32_of_significand 1 8388608 0 (by norm_num) (by norm_num) (by norm_num)
    (by norm_num)

/-- Without rounding the rounded definitions are the exact ones. -/
theorem getLerpKeyFrameRounded_id (slerp : XMVECTOR ℚ → XMVECTOR ℚ → ℚ → XMVECTOR ℚ)
    (a : Animation) (deltaTime : ℚ) :
    a.GetLerpKeyFrameRounded id slerp deltaTime = a.GetLerpKeyFrame slerp deltaTime := rfl

/-- The loop of `GetLerpKeyFrame` over a clip whose keyframes all have `n` bones, for a
segment index `s` with `s + 1` in range: it returns a keyframe of `n` bones, bone
by bone the lerp and the slerp of keyframes `s` and `s + 1`. -/
theorem lerpLoop_segment (slerp : XMVECTOR ℚ → XMVECTOR ℚ → ℚ → XMVECTOR ℚ)
    (keys : List (KeyFrame ℚ)) (t : ℚ) (n s : ℕ) (hs : s + 1 < keys.length)
    (hn : ∀ k ∈ keys, k.Translation.length = n ∧ k.Quaternion.length = n) :
    ∃ out, lerpLoop (lerpBone slerp keys (s : ℤ) t) n 0 ⟨[], []⟩ = some out ∧
      out.Translation.length = n ∧ out.Quaternion.length = n ∧
      (∀ (i : ℕ) k0 k1 v0 v1, keys[s]? = some k0 → keys[s + 1]? = some k1 →
        k0.Translation[i]? = some v0 → k1.Translation[i]? = some v1 →
        out.Translation[i]? = some (XMVectorLerp v0 v1 t)) ∧
      (∀ (i : ℕ) k0 k1 q0 q1, keys[s]? = some k0 → keys[s + 1]? = some k1 →
        k0.Quaternion[i]? = some q0 → k1.Quaternion[i]? = some q1 →
        out.Quaternion[i]? = some (slerp q0 q1 t)) := by
  have hL : keys[s]? = some (keys[s]) := List.getElem?_eq_getElem (by omega)
  have hR : keys[s + 1]? = some (keys[s + 1]) := List.getElem?_eq_getElem hs
  have hnL := hn _ (List.getElem_mem (show s < keys.length by omega))
  have hnR := hn _ (List.getElem_mem hs)
  have hbody : ∀ j, j < n → ∃ v0 v1 q0 q1,
      (keys[s]).Translation[j]? = some v0 ∧ (keys[s + 1]).Translation[j]? = some v1 ∧
      (keys[s]).Quaternion[j]? = some q0 ∧ (keys[s + 1]).Quaternion[j]? = some q1 := by
    intro j hj
    exact ⟨_, _, _, _, List.getElem?_eq_getElem (by omega), List.getElem?_eq_getElem (by omega),
      List.getElem?_eq_getElem (by omega), List.getElem?_eq_getElem (by omega)⟩
  obtain ⟨res, hres, hlT, hlQ, -, hnew⟩ :=
    lerpLoop_spec (lerpBone slerp keys (s : ℤ) t) n 0 ⟨[], []⟩ rfl rfl
      (by
        intro j _ hj
        obtain ⟨v0, v1, q0, q1, h1, h2, h3, h4⟩ := hbody j (by omega)
        rw [lerpBone_eq slerp keys s _ j _ _ v0 v1 q0 q1 hL hR h1 h2 h3 h4]
        rfl)
  refine ⟨res, hres, by omega, by omega, ?_, ?_⟩
  · intro i k0 k1 v0 v1 h0 h1 hv0 hv1
    rw [hL] at h0
    rw [hR] at h1
    cases h0
    cases h1
    have hi : i < n := by
      rw [← hnL.1]
      exact (List.getElem?_eq_some_iff.mp hv0).1
    obtain ⟨w0, w1, q0, q1, e1, e2, e3, e4⟩ := hbody i hi
    rw [hv0] at e1
    rw [hv1] at e2
    cases e1
    cases e2
    exact (hnew i _ _ (Nat.zero_le i) (by omega)
      (lerpBone_eq slerp keys s t i _ _ v0 v1 q0 q1 hL hR hv0 hv1 e3 e4)).1
  · intro i k0 k1 q0 q1 h0 h1 hq0 hq1
    rw [hL] at h0
    rw [hR] at h1
    cases h0
    cases h1
    have hi : i < n := by
      rw [← hnL.2]
      exact (List.getElem?_eq_some_iff.mp hq0).1
    obtain ⟨v0, v1, w0, w1, e1, e2, e3, e4⟩ := hbody i hi
    rw [hq0] at e3
    rw [hq1] at e4
    cases e3
    cases e4
    exact (hnew i _ _ (Nat.zero_le i) (by omega)
      (lerpBone_eq slerp keys s t i _ _ v0 v1 q0 q1 hL hR e1 e2 hq0 hq1)).2

theorem sampleAtRounded_eq (fl : ℚ → ℚ) (slerp : XMVECTOR ℚ → XMVECTOR ℚ → ℚ → XMVECTOR ℚ)
    (keys : List (KeyFrame ℚ)) (I c : ℚ) (n s : ℕ) (hI : I ≠ 0)
    (hleft : leftIndexRounded fl c I = (s : ℤ)) (hs : s + 1 < keys.length)
    (hn : ∀ k ∈ keys, k.Translation.length = n ∧ k.Quaternion.length = n) :
    sampleAtRounded fl slerp keys I c =
      lerpLoop (lerpBone slerp keys (s : ℤ) (lerpParamRounded fl c I)) n 0 ⟨[], []⟩ := by
  have hfirst : keys[0]? = some (keys[0]) := List.getElem?_eq_getElem (by omega)
  have hn0 := hn _ (List.getElem_mem (show 0 < keys.length by omega))
  simp only [sampleAtRounded, if_neg hI, hfirst, hn0.1, hleft]

theorem lastTimeRounded_two_keys (fl : ℚ → ℚ) (p : ℚ) (h1 : fl 1 = 1) :
    (clipTwoKeysAt p).GetLastTimeRounded fl = 1 := by
  simp [Animation.GetLastTimeRounded, clipTwoKeysAt, h1]

/-- C5: for a clip of `K ≥ 2` keyframes and `Interval > 0`, under any rounding `fl` of the
scalar arithmetic that keeps `0` (binary32 rounding, or none), a call whose advanced cursor
exceeds `lastTime` gives the same result and leaves the same clip state as a fresh clip
(cursor `0`) sampled with `deltaTime = 0`, whatever the overshoot. When all keyframes have
`n` bones the result is a pose of `n` bones: the translations of keyframe `0` and the
rotations `slerp(q_0, q_1, 0)`. -/
theorem C5_overshoot_samples_like_fresh_clip (fl : ℚ → ℚ)
    (slerp : XMVECTOR ℚ → XMVECTOR ℚ → ℚ → XMVECTOR ℚ) (a : Animation) (deltaTime : ℚ)
    (hfl : fl 0 = 0) (hK : 2 ≤ a.KeyFrames.length) (hI : 0 < a.Interval)
    (hover : fl (a.PlayTime + deltaTime) > a.GetLastTimeRounded fl) :
    (a.GetLerpKeyFrameRounded fl slerp deltaTime).2 =
        (Animation.GetLerpKeyFrameRounded fl slerp { a with PlayTime := 0 } 0).2 ∧
      (a.GetLerpKeyFrameRounded fl slerp deltaTime).1 =
        (Animation.GetLerpKeyFrameRounded fl slerp { a with PlayTime := 0 } 0).1 ∧
      ∀ n : ℕ, (∀ k ∈ a.KeyFrames, k.Translation.length = n ∧ k.Quaternion.length = n) →
        ∃ out, (a.GetLerpKeyFrameRounded fl slerp deltaTime).2 = some out ∧
          out.Translation.length = n ∧ out.Quaternion.length = n ∧
          (∀ (i : ℕ) k0 v0, a.KeyFrames[0]? = some k0 → k0.Translation[i]? = some v0 →
            out.Translation[i]? = some v0) ∧
          (∀ (i : ℕ) k0 k1 q0 q1, a.KeyFrames[0]? = some k0 → a.KeyFrames[1]? = some k1 →
            k0.Quaternion[i]? = some q0 → k1.Quaternion[i]? = some q1 →
            out.Quaternion[i]? = some (slerp q0 q1 0)) := by
  have h1 : a.advanceRounded fl deltaTime = 0 := by
    rw [Animation.advanceRounded, if_pos hover]
  have h2 : Animation.advanceRounded fl { a with PlayTime := 0 } 0 = 0 := by
    simp [Animation.advanceRounded, hfl]
  have hleft : leftIndexRounded fl 0 a.Interval = ((0 : ℕ) : ℤ) := by
    simp [leftIndexRounded, hfl, truncToInt]
  have hpar : lerpParamRounded fl 0 a.Interval = 0 := by
    rw [lerpParamRounded, hleft]
    simp [hfl]
  refine ⟨?_, ?_, ?_⟩
  · simp only [Animation.GetLerpKeyFrameRounded, h1, h2]
  · simp only [Animation.GetLerpKeyFrameRounded, h1, h2]
  · intro n hn
    obtain ⟨out, hout, hlT, hlQ, hT, hQ⟩ :=
      lerpLoop_segment slerp a.KeyFrames (lerpParamRounded fl 0 a.Interval) n 0 (by omega) hn
    refine ⟨out, ?_, hlT, hlQ, ?_, ?_⟩
    · simp only [Animation.GetLerpKeyFrameRounded, h1]
      rw [sampleAtRounded_eq fl slerp a.KeyFrames a.Interval 0 n 0 hI.ne.symm hleft
        (by omega) hn]
      exact hout
    · intro i k0 v0 e0 e1
      have hi : i < n := by
        rw [← (hn k0 (List.getElem?_mem e0)).1]
        exact (List.getElem?_eq_some_iff.mp e1).1
      have hk1 : a.KeyFrames[0 + 1]? = some (a.KeyFrames[1]) :=
        List.getElem?_eq_getElem (by omega)
      have hn1 := hn _ (List.getElem_mem (show 1 < a.KeyFrames.length by omega))
      obtain ⟨v1, hv1⟩ : ∃ v1, (a.KeyFrames[1]).Translation[i]? = some v1 :=
        ⟨_, List.getElem?_eq_getElem (by omega)⟩
      rw [hT i k0 _ v0 v1 e0 hk1 e1 hv1, hpar]
      simp [XMVectorLerp]
    · intro i k0 k1 q0 q1 e0 e1 e2 e3
      rw [hQ i k0 k1 q0 q1 e0 e1 e2 e3, hpar]

theorem roundBinary32_fifteen_halves : roundBinary32 (1 / 2 + 7) = 1 / 2 + 7 :=
  roundBinary32_of_significand (1 / 2 + 7) 15728640 2 (by norm_num) (by norm_num)
    (by norm_num) (by norm_num)

theorem clipTwoKeysAt_bones (p : ℚ) :
    ∀ k ∈ (clipTwoKeysAt p).KeyFrames, k.Translation.length = 1 ∧ k.Quaternion.length = 1 := by
  intro k hk
  simp only [clipTwoKeysAt, List.mem_cons, List.mem_singleton, List.not_mem_nil,
    or_false] at hk
  rcases hk with rfl | rfl <;> exact ⟨rfl, rfl⟩

/-- C5 at a concrete input, in binary32: `clipTwoKeys` with cursor `1/2` and
`deltaTime = 7`; the pose returned is keyframe `0`, translation `(0, 0, 0)`. -/
theorem C5_overshoot_samples_like_fresh_clip_witness :
    roundBinary32 0 = 0 ∧ 2 ≤ (clipTwoKeysAt (1 / 2)).KeyFrames.length ∧
    0 < (clipTwoKeysAt (1 / 2)).Interval ∧
    roundBinary32 ((clipTwoKeysAt (1 / 2)).PlayTime + 7) >
      (clipTwoKeysAt (1 / 2)).GetLastTimeRounded roundBinary32 ∧
    ∃ out, ((clipTwoKeysAt (1 / 2)).GetLerpKeyFrameRounded roundBinary32
        (fun q _ _ => q) 7).2 = some out ∧
      ((clipTwoKeysAt 0).GetLerpKeyFrameRounded roundBinary32 (fun q _ _ => q) 0).2 =
        some out ∧
      out.Translation[0]? = some (XMVectorSet (0 : ℚ) 0 0 1) := by
  have hK : 2 ≤ (clipTwoKeysAt (1 / 2)).KeyFrames.length := by decide
  have hI : 0 < (clipTwoKeysAt (1 / 2)).Interval := by norm_num [clipTwoKeysAt]
  have hover : roundBinary32 ((clipTwoKeysAt (1 / 2)).PlayTime + 7) >
      (clipTwoKeysAt (1 / 2)).GetLastTimeRounded roundBinary32 := by
    have hp : (clipTwoKeysAt (1 / 2)).PlayTime = 1 / 2 := rfl
    rw [lastTimeRounded_two_keys roundBinary32 _ roundBinary32_one, hp,
      roundBinary32_fifteen_halves]
    norm_num
  obtain ⟨heq, -, hpose⟩ :=
    C5_overshoot_samples_like_fresh_clip roundBinary32 (fun q _ _ => q) (clipTwoKeysAt (1 / 2))
      7 roundBinary32_zero hK hI hover
  obtain ⟨out, hout, -, -, hT, -⟩ := hpose 1 (clipTwoKeysAt_bones (1 / 2))
  refine ⟨roundBinary32_zero, hK, hI, hover, out, hout, ?_, ?_⟩
  · rw [← hout, heq]
    rfl
  · exact hT 0 keyA (XMVectorSet 0 0 0 1) rfl rfl

/-- The constant matrix of the rotation by `+π/2` about Z (row-vector convention). -/
theorem rotationQuaternion_quarterTurn {α : Type} [Field α] (r : α) (hr : 2 * r * r = 1) :
    XMMatrixRotationQuaternion
        (XMQuaternionRotationRollPitchYaw Angle.zero Angle.zero (Angle.quarterTurn r)) =
      (!![0, 1, 0, 0; -1, 0, 0, 0; 0, 0, 1, 0; 0, 0, 0, 1] : XMMATRIX α) := by
  ext i j
  fin_cases i <;> fin_cases j <;>
    simp [XMMatrixRotationQuaternion, XMQuaternionRotationRollPitchYaw, Angle.zero,
      Angle.quarterTurn, Matrix.vecHead, Matrix.vecTail] <;>
    first
      | linear_combination hr
      | linear_combination -hr

theorem rotationQuaternion_quarterTurn_neg {α : Type} [Field α] (r : α) (hr : 2 * r * r = 1) :
    XMMatrixRotationQuaternion
        (XMQuaternionRotationRollPitchYaw Angle.zero Angle.zero (Angle.quarterTurn r).neg) =
      (!![0, -1, 0, 0; 1, 0, 0, 0; 0, 0, 1, 0; 0, 0, 0, 1] : XMMATRIX α) := by
  ext i j
  fin_cases i <;> fin_cases j <;>
    simp [XMMatrixRotationQuaternion, XMQuaternionRotationRollPitchYaw, Angle.zero,
      Angle.quarterTurn, Angle.neg, Matrix.vecHead, Matrix.vecTail] <;>
    first
      | linear_combination hr
      | linear_combination -hr

theorem rotationZ_quarterTurn {α : Type} [Field α] (r : α) (hr : 2 * r * r = 1) :
    XMMatrixRotationZ (Angle.quarterTurn r) =
      (!![0, 1, 0, 0; -1, 0, 0, 0; 0, 0, 1, 0; 0, 0, 0, 1] : XMMATRIX α) := by
  ext i j
  fin_cases i <;> fin_cases j <;>
    simp [XMMatrixRotationZ, Angle.sin, Angle.cos, Angle.quarterTurn, Matrix.vecHead,
      Matrix.vecTail] <;>
    linear_combination hr

theorem rotationZ_quarterTurn_neg {α : Type} [Field α] (r : α) (hr : 2 * r * r = 1) :
    XMMatrixRotationZ (Angle.quarterTurn r).neg =
      (!![0, -1, 0, 0; 1, 0, 0, 0; 0, 0, 1, 0; 0, 0, 0, 1] : XMMATRIX α) := by
  ext i j
  fin_cases i <;> fin_cases j <;>
    simp [XMMatrixRotationZ, Angle.sin, Angle.cos, Angle.quarterTurn, Angle.neg,
      Matrix.vecHead, Matrix.vecTail] <;>
    linear_combination hr

/-- The matrix `XMMatrixInverse M` is a left inverse of every `M` that has a right inverse. -/
theorem XMMatrixInverse_mul_self {α : Type} [Field α] (M N : XMMATRIX α) (h : M * N = 1) :
    XMMatrixMultiply (XMMatrixInverse M) M = 1 := by
  have hdet : M.det ≠ 0 := by
    intro h0
    have h1 : M.det * N.det = 1 := by rw [← Matrix.det_mul, h, Matrix.det_one]
    rw [h0, zero_mul] at h1
    exact zero_ne_one h1
  rw [XMMatrixMultiply, XMMatrixInverse, XMMatrixDeterminant, Matrix.smul_mul,
    Matrix.adjugate_mul, smul_smul, inv_mul_cancel₀ hdet, one_smul]


theorem poseLoop_spec {α : Type} [Field α] (skel : Skeleton α) (keyFrame : KeyFrame α) :
    ∀ (n i : ℕ) (ToRoot final : List (XMMATRIX α)), ToRoot.length = i → final.length = i →
      (∀ j T, i ≤ j → j < i + n → T.length = j → (poseStep skel keyFrame j T).isSome = true) →
      ∃ R F, poseLoop skel keyFrame n i ToRoot final = some (R, F) ∧
        R.length = i + n ∧ F.length = i + n ∧ R.take i = ToRoot ∧ F.take i = final ∧
        ∀ j, i ≤ j → j < i + n → ∃ m f, poseStep skel keyFrame j (R.take j) = some (m, f) ∧
          R[j]? = some m ∧ F[j]? = some f := by
  intro n
  induction n with
  | zero =>
    intro i ToRoot final hR hF _
    refine ⟨ToRoot, final, rfl, by simpa using hR, by simpa using hF, ?_, ?_, ?_⟩
    · rw [← hR]; exact List.take_length _
    · rw [← hF]; exact List.take_length _
    · intro j h1 h2; omega
  | succ n ih =>
    intro i ToRoot final hR hF hstep
    obtain ⟨⟨m, f⟩, hm⟩ := Option.isSome_iff_exists.mp (hstep i ToRoot (le_refl i) (by omega) hR)
    obtain ⟨R, F, hRF, hlR, hlF, htR, htF, hall⟩ :=
      ih (i + 1) (ToRoot ++ [m]) (final ++ [f]) (by simp [hR]) (by simp [hF])
        (fun j T h1 h2 h3 => hstep j T (by omega) (by omega) h3)
    have htR0 : R.take i = ToRoot := by
      have h := congrArg (List.take i) htR
      rw [List.take_take, min_eq_left (Nat.le_succ i)] at h
      rw [h, List.take_append_of_le_length (by omega), ← hR, List.take_length]
    have htF0 : F.take i = final := by
      have h := congrArg (List.take i) htF
      rw [List.take_take, min_eq_left (Nat.le_succ i)] at h
      rw [h, List.take_append_of_le_length (by omega), ← hF, List.take_length]
    have hRi : R[i]? = some m := by
      have h : (R.take (i + 1))[i]? = R[i]? := by
        rw [List.getElem?_take, if_pos (Nat.lt_succ_self i)]
      rw [← h, htR, ← hR]
      simp
    have hFi : F[i]? = some f := by
      have h : (F.take (i + 1))[i]? = F[i]? := by
        rw [List.getElem?_take, if_pos (Nat.lt_succ_self i)]
      rw [← h, htF, ← hF]
      simp
    refine ⟨R, F, ?_, by omega, by omega, htR0, htF0, ?_⟩
    · simp only [poseLoop, hm]; exact hRF
    · intro j h1 h2
      rcases Nat.eq_or_lt_of_le h1 with h | h
      · subst h
        exact ⟨m, f, by rw [htR0]; exact hm, hRi, hFi⟩
      · exact hall j (by omega) (by omega)

theorem poseStep_zero {α : Type} [Field α] (skel : Skeleton α) (keyFrame : KeyFrame α)
    (T : List (XMMATRIX α)) (p : ℤ) (b : Bone α) (L : XMMATRIX α)
    (hp : skel.ParentBoneIndex[0]? = some p) (hb : skel.Bones[0]? = some b)
    (hL : keyFrame.ToParent 0 = some L) :
    poseStep skel keyFrame 0 T = some (L, XMMatrixTranspose (XMMatrixMultiply b.Offset L)) := by
  simp [poseStep, hp, hb, hL]

theorem poseStep_succ {α : Type} [Field α] (skel : Skeleton α) (keyFrame : KeyFrame α)
    (i : ℕ) (T : List (XMMATRIX α)) (p : ℤ) (b : Bone α) (L M : XMMATRIX α) (hi : i ≠ 0)
    (hp : skel.ParentBoneIndex[i]? = some p) (hb : skel.Bones[i]? = some b)
    (hL : keyFrame.ToParent i = some L) (hM : getAt T p = some M) :
    poseStep skel keyFrame i T =
      some (XMMatrixMultiply L M,
        XMMatrixTranspose (XMMatrixMultiply b.Offset (XMMatrixMultiply L M))) := by
  simp [poseStep, hp, hb, hL, hM, hi]

theorem toParent_isSome {α : Type} [Field α] (keyFrame : KeyFrame α) (i : ℕ)
    (hT : i < keyFrame.Translation.length) (hQ : i < keyFrame.Quaternion.length) :
    ∃ L, keyFrame.ToParent i = some L := by
  simp [KeyFrame.ToParent, List.getElem?_eq_getElem hT, List.getElem?_eq_getElem hQ]

theorem getAt_take {β : Type} (v : List β) (j : ℕ) (p : ℤ) (h0 : 0 ≤ p) (hj : p < j) :
    getAt (v.take j) p = v[p.toNat]? := by
  rw [getAt, if_neg (not_lt.mpr h0), List.getElem?_take, if_pos (by omega)]


theorem poseStep_isSome {α : Type} [Field α] (skel : Skeleton α) (keyFrame : KeyFrame α)
    (hB : 5 ≤ skel.Bones.length) (hP : 5 ≤ skel.ParentBoneIndex.length)
    (hT : 5 ≤ keyFrame.Translation.length) (hQ : 5 ≤ keyFrame.Quaternion.length)
    (hpar : ∀ (i : ℕ) (p : ℤ), 1 ≤ i → i < 5 → skel.ParentBoneIndex[i]? = some p →
      0 ≤ p ∧ p < i)
    (j : ℕ) (T : List (XMMATRIX α)) (hj : j < 5) (hlen : T.length = j) :
    (poseStep skel keyFrame j T).isSome = true := by
  obtain ⟨p, hp⟩ : ∃ p, skel.ParentBoneIndex[j]? = some p :=
    ⟨_, List.getElem?_eq_getElem (show j < skel.ParentBoneIndex.length by omega)⟩
  obtain ⟨b, hb⟩ : ∃ b, skel.Bones[j]? = some b :=
    ⟨_, List.getElem?_eq_getElem (show j < skel.Bones.length by omega)⟩
  obtain ⟨L, hL⟩ := toParent_isSome keyFrame j (by omega) (by omega)
  rcases Nat.eq_zero_or_pos j with h0 | h0
  · subst h0
    rw [poseStep_zero skel keyFrame T p b L hp hb hL]
    rfl
  · obtain ⟨h1, h2⟩ := hpar j p h0 hj hp
    have hlt : p.toNat < T.length := by omega
    obtain ⟨M, hM⟩ : ∃ M, getAt T p = some M := by
      rw [getAt, if_neg (not_lt.mpr h1)]
      exact ⟨_, List.getElem?_eq_getElem hlt⟩
    rw [poseStep_succ skel keyFrame j T p b L M (by omega) hp hb hL hM]
    rfl

theorem poseLoop_congr {α : Type} [Field α] (skel skel2 : Skeleton α) (keyFrame : KeyFrame α)
    (h : ∀ j T, poseStep skel keyFrame j T = poseStep skel2 keyFrame j T) :
    ∀ (n i : ℕ) (ToRoot final : List (XMMATRIX α)),
      poseLoop skel keyFrame n i ToRoot final = poseLoop skel2 keyFrame n i ToRoot final := by
  intro n
  induction n with
  | zero => intro i ToRoot final; rfl
  | succ n ih =>
    intro i ToRoot final
    simp only [poseLoop, h i ToRoot, ih]

theorem final_of_bind {α : Type} [Field α] (B N : XMMATRIX α) (h : B * N = 1) :
    XMMatrixTranspose (XMMatrixMultiply (boneOfBind B).Offset B) = XMMatrixIdentity := by
  rw [boneOfBind, XMMatrixInverse_mul_self B N h, XMMatrixTranspose, Matrix.transpose_one]
  rfl


/-! ## Properties of the pose loop of `BoxApp::Update` -/

/-- C9: when the five bones are present and every bone `i ≥ 1` has its parent index `p`
in `[0, i)`, the pose loop runs to completion and `ToRoot[i] = ToParent(i) * ToRoot[p]`
with the child's local transform as the left factor; for a chain root `0`, child `1`,
`ToRoot[1] = ToParent(1) * ToParent(0)`. The order matters: for the pose `chainPose`
(half turn on bone `0`, translation on bone `1`) the two products differ. -/
theorem C9_to_root_is_local_times_parent {α : Type} [Field α] (skel : Skeleton α)
    (keyFrame : KeyFrame α) (hB : 5 ≤ skel.Bones.length) (hP : 5 ≤ skel.ParentBoneIndex.length)
    (hT : 5 ≤ keyFrame.Translation.length) (hQ : 5 ≤ keyFrame.Quaternion.length)
    (hpar : ∀ (i : ℕ) (p : ℤ), 1 ≤ i → i < 5 → skel.ParentBoneIndex[i]? = some p →
      0 ≤ p ∧ p < i) :
    (∃ ToRoot final, UpdatePose skel keyFrame = some (ToRoot, final) ∧ ToRoot.length = 5 ∧
      (∀ (i : ℕ) (p : ℤ) (L M : XMMATRIX α), 1 ≤ i → i < 5 →
        skel.ParentBoneIndex[i]? = some p → keyFrame.ToParent i = some L →
        ToRoot[p.toNat]? = some M → ToRoot[i]? = some (L * M)) ∧
      (∀ L0 L1 : XMMATRIX α, skel.ParentBoneIndex[1]? = some 0 →
        keyFrame.ToParent 0 = some L0 → keyFrame.ToParent 1 = some L1 →
        ToRoot[1]? = some (L1 * L0))) ∧
    (∃ L0 L1 : XMMATRIX ℚ, chainPose.ToParent 0 = some L0 ∧ chainPose.ToParent 1 = some L1 ∧
      L1 * L0 ≠ L0 * L1) := by
  constructor
  · obtain ⟨R, F, hRF, hlen, -, -, -, hall⟩ :=
      poseLoop_spec skel keyFrame 5 0 [] [] rfl rfl
        (fun j T _ h2 h3 => poseStep_isSome skel keyFrame hB hP hT hQ hpar j T (by omega) h3)
    have hgen : ∀ (i : ℕ) (p : ℤ) (L M : XMMATRIX α), 1 ≤ i → i < 5 →
        skel.ParentBoneIndex[i]? = some p → keyFrame.ToParent i = some L →
        R[p.toNat]? = some M → R[i]? = some (L * M) := by
      intro i p L M h1 h2 hp hL hM
      obtain ⟨m, f, hstep, hRi, -⟩ := hall i (Nat.zero_le i) (by omega)
      obtain ⟨hp0, hpi⟩ := hpar i p h1 h2 hp
      obtain ⟨b, hb⟩ : ∃ b, skel.Bones[i]? = some b :=
        ⟨_, List.getElem?_eq_getElem (show i < skel.Bones.length by omega)⟩
      have hget : getAt (R.take i) p = some M := by
        rw [getAt_take R i p hp0 hpi]; exact hM
      rw [poseStep_succ skel keyFrame i _ p b L M (by omega) hp hb hL hget] at hstep
      simp only [Option.some.injEq, Prod.mk.injEq] at hstep
      rw [hRi, ← hstep.1]
      rfl
    have hzero : ∀ L0 : XMMATRIX α, keyFrame.ToParent 0 = some L0 → R[0]? = some L0 := by
      intro L0 hL0
      obtain ⟨m, f, hstep, hRi, -⟩ := hall 0 (le_refl 0) (by omega)
      obtain ⟨p, hp⟩ : ∃ p, skel.ParentBoneIndex[0]? = some p :=
        ⟨_, List.getElem?_eq_getElem (show 0 < skel.ParentBoneIndex.length by omega)⟩
      obtain ⟨b, hb⟩ : ∃ b, skel.Bones[0]? = some b :=
        ⟨_, List.getElem?_eq_getElem (show 0 < skel.Bones.length by omega)⟩
      rw [poseStep_zero skel keyFrame _ p b L0 hp hb hL0] at hstep
      simp only [Option.some.injEq, Prod.mk.injEq] at hstep
      rw [hRi, ← hstep.1]
    refine ⟨R, F, hRF, by omega, hgen, ?_⟩
    intro L0 L1 hp hL0 hL1
    exact hgen 1 0 L1 L0 (le_refl 1) (by omega) hp hL1 (hzero L0 hL0)
  · refine ⟨_, _, rfl, rfl, ?_⟩
    intro h
    have h30 := congrFun (congrFun h 3) 0
    simp [chainPose, XMVectorSet, XMQuaternionIdentity, XMMatrixMultiply,
      XMMatrixRotationQuaternion, XMMatrixTranslationFromVector, Matrix.mul_apply,
      Fin.sum_univ_four, Matrix.vecHead, Matrix.vecTail] at h30


theorem chainSkeleton_parents (i : ℕ) (p : ℤ) (h1 : 1 ≤ i) (h2 : i < 5)
    (hp : ([-1, 0, 0, 1, 2] : List ℤ)[i]? = some p) : 0 ≤ p ∧ p < i := by
  interval_cases i <;> simp at hp <;> subst hp <;> decide

/-- C9 at a concrete input: the skeleton `chainSkeleton` (parents `[-1, 0, 0, 1, 2]`) and
the pose `chainPose`. -/
theorem C9_to_root_is_local_times_parent_witness :
    5 ≤ chainSkeleton.Bones.length ∧ 5 ≤ chainSkeleton.ParentBoneIndex.length ∧
    5 ≤ chainPose.Translation.length ∧ 5 ≤ chainPose.Quaternion.length ∧
    ∃ ToRoot final L0 L1, UpdatePose chainSkeleton chainPose = some (ToRoot, final) ∧
      chainPose.ToParent 0 = some L0 ∧ chainPose.ToParent 1 = some L1 ∧
      ToRoot[1]? = some (L1 * L0) ∧ L1 * L0 ≠ L0 * L1 := by
  obtain ⟨⟨R, F, hRF, -, -, h01⟩, L0, L1, hL0, hL1, hne⟩ :=
    C9_to_root_is_local_times_parent chainSkeleton chainPose (by decide) (by decide)
      (by decide) (by decide) chainSkeleton_parents
  exact ⟨by decide, by decide, by decide, by decide, R, F, L0, L1, hRF, hL0, hL1,
    h01 L0 L1 rfl hL0 hL1, hne⟩

/-- C10 fails on the code: in `twoRootSkeleton` bone `4` is marked as a root
(`ParentBoneIndex[4] = -1`) and has a local transform, but the loop only treats index `0`
as a root; for `i = 4` it reads `ToRoot[-1]`, outside the array, and no `ToRoot[4]` equal
to `ToParent(4)` is produced. -/
theorem C10_second_root_reads_out_of_range :
    twoRootSkeleton.ParentBoneIndex[4]? = some (-1) ∧ (chainPose.ToParent 4).isSome = true ∧
      (∀ T : List (XMMATRIX ℚ), poseStep twoRootSkeleton chainPose 4 T = none) ∧
      UpdatePose twoRootSkeleton chainPose = none := by
  have hstep : ∀ T : List (XMMATRIX ℚ), poseStep twoRootSkeleton chainPose 4 T = none := by
    intro T
    simp [poseStep, twoRootSkeleton, getAt]
  refine ⟨rfl, rfl, hstep, ?_⟩
  simp only [UpdatePose, poseLoop, hstep]
  repeat' split
  all_goals rfl

/-- C10 as amended: the bone at index `0` is the one the loop treats as the root. When the
five bones are present and every bone `i ≥ 1` has its parent index in `[0, i)`, the loop
runs to completion with `ToRoot[0] = ToParent(0)`; every bone `i ≥ 1` is composed with its
parent's entry, `ToRoot[i] = ToParent(i) * ToRoot[ParentBoneIndex[i]]`; and the whole
result is the same whatever value `ParentBoneIndex[0]` holds: no parent entry is read for
bone `0`. -/
theorem C10_bone_zero_is_taken_as_root {α : Type} [Field α] (skel : Skeleton α)
    (keyFrame : KeyFrame α) (hB : 5 ≤ skel.Bones.length) (hP : 5 ≤ skel.ParentBoneIndex.length)
    (hT : 5 ≤ keyFrame.Translation.length) (hQ : 5 ≤ keyFrame.Quaternion.length)
    (hpar : ∀ (i : ℕ) (p : ℤ), 1 ≤ i → i < 5 → skel.ParentBoneIndex[i]? = some p →
      0 ≤ p ∧ p < i) :
    ∃ ToRoot final, UpdatePose skel keyFrame = some (ToRoot, final) ∧
      ToRoot[0]? = keyFrame.ToParent 0 ∧
      (∀ (i : ℕ) (p : ℤ) (L M : XMMATRIX α), 1 ≤ i → i < 5 →
        skel.ParentBoneIndex[i]? = some p → keyFrame.ToParent i = some L →
        ToRoot[p.toNat]? = some M → ToRoot[i]? = some (XMMatrixMultiply L M)) ∧
      ∀ p0 : ℤ, UpdatePose ⟨skel.Bones, skel.ParentBoneIndex.set 0 p0⟩ keyFrame =
        some (ToRoot, final) := by
  obtain ⟨R, F, hRF, -, -, -, -, hall⟩ :=
    poseLoop_spec skel keyFrame 5 0 [] [] rfl rfl
      (fun j T _ h2 h3 => poseStep_isSome skel keyFrame hB hP hT hQ hpar j T (by omega) h3)
  obtain ⟨p, hp⟩ : ∃ p, skel.ParentBoneIndex[0]? = some p :=
    ⟨_, List.getElem?_eq_getElem (show 0 < skel.ParentBoneIndex.length by omega)⟩
  obtain ⟨b, hb⟩ : ∃ b, skel.Bones[0]? = some b :=
    ⟨_, List.getElem?_eq_getElem (show 0 < skel.Bones.length by omega)⟩
  obtain ⟨L, hL⟩ := toParent_isSome keyFrame 0 (by omega) (by omega)
  refine ⟨R, F, hRF, ?_, ?_, ?_⟩
  · obtain ⟨m, f, hstep, hRi, -⟩ := hall 0 (le_refl 0) (by omega)
    rw [poseStep_zero skel keyFrame _ p b L hp hb hL] at hstep
    simp only [Option.some.injEq, Prod.mk.injEq] at hstep
    rw [hRi, hL, ← hstep.1]
  · intro i q Li M h1 h2 hq hLi hM
    obtain ⟨m, f, hstep, hRi, -⟩ := hall i (Nat.zero_le i) (by omega)
    obtain ⟨hq0, hqi⟩ := hpar i q h1 h2 hq
    obtain ⟨bi, hbi⟩ : ∃ bi, skel.Bones[i]? = some bi :=
      ⟨_, List.getElem?_eq_getElem (show i < skel.Bones.length by omega)⟩
    have hget : getAt (R.take i) q = some M := by
      rw [getAt_take R i q hq0 hqi]; exact hM
    rw [poseStep_succ skel keyFrame i _ q bi Li M (by omega) hq hbi hLi hget] at hstep
    simp only [Option.some.injEq, Prod.mk.injEq] at hstep
    rw [hRi, ← hstep.1]
  · intro p0
    rw [← hRF]
    refine poseLoop_congr _ skel keyFrame ?_ 5 0 [] []
    intro j T
    rcases Nat.eq_zero_or_pos j with h0 | h0
    · subst h0
      have hp2 : (skel.ParentBoneIndex.set 0 p0)[0]? = some p0 := by
        rw [List.getElem?_set_self (by omega)]
      rw [poseStep_zero skel keyFrame T p b L hp hb hL,
        poseStep_zero ⟨skel.Bones, skel.ParentBoneIndex.set 0 p0⟩ keyFrame T p0 b L hp2 hb hL]
    · have hset : (skel.ParentBoneIndex.set 0 p0)[j]? = skel.ParentBoneIndex[j]? :=
        List.getElem?_set_ne (by omega)
      simp only [poseStep, hset]

/-- C10 as amended, at a concrete input: `chainSkeleton` and `chainPose`; bone `3`, whose
parent is bone `1`, gets `ToParent(3) * ToRoot[1]`, and replacing the root marker `-1` of
bone `0` by `3` changes nothing. -/
theorem C10_bone_zero_is_taken_as_root_witness :
    5 ≤ chainSkeleton.Bones.length ∧ 5 ≤ chainSkeleton.ParentBoneIndex.length ∧
    5 ≤ chainPose.Translation.length ∧ 5 ≤ chainPose.Quaternion.length ∧
    ∃ ToRoot final, UpdatePose chainSkeleton chainPose = some (ToRoot, final) ∧
      ToRoot[0]? = chainPose.ToParent 0 ∧
      (∀ L M : XMMATRIX ℚ, chainPose.ToParent 3 = some L → ToRoot[1]? = some M →
        ToRoot[3]? = some (XMMatrixMultiply L M)) ∧
      UpdatePose ⟨chainSkeleton.Bones, [3, 0, 0, 1, 2]⟩ chainPose = some (ToRoot, final) := by
  obtain ⟨R, F, hRF, h0, hcomp, hset⟩ :=
    C10_bone_zero_is_taken_as_root chainSkeleton chainPose (by decide) (by decide)
      (by decide) (by decide) chainSkeleton_parents
  exact ⟨by decide, by decide, by decide, by decide, R, F, hRF, h0,
    fun L M hL hM => hcomp 3 1 L M (by decide) (by decide) rfl hL hM, hset 3⟩

theorem translationFromVector_eq {α : Type} [Field α] (x y z w : α) :
    XMMatrixTranslationFromVector (XMVectorSet x y z w) = XMMatrixTranslation x y z := rfl

theorem rotationQuaternion_identity {α : Type} [Field α] :
    XMMatrixRotationQuaternion (XMQuaternionIdentity : XMVECTOR α) = 1 := by
  ext i j
  fin_cases i <;> fin_cases j <;>
    simp [XMMatrixRotationQuaternion, XMQuaternionIdentity, Matrix.vecHead, Matrix.vecTail]

theorem translation_zero {α : Type} [Field α] : XMMatrixTranslation (0 : α) 0 0 = 1 := by
  ext i j
  fin_cases i <;> fin_cases j <;>
    simp [XMMatrixTranslation, Matrix.vecHead, Matrix.vecTail]

/-- The bind matrix of bone `1`, `RotationZ(π/2) * Translation(0, 1, 0)`, entry by entry. -/
theorem bind_quarter {α : Type} [Field α] :
    (!![0, 1, 0, 0; -1, 0, 0, 0; 0, 0, 1, 0; 0, 0, 0, 1] : XMMATRIX α) *
        XMMatrixTranslation 0 1 0 =
      !![0, 1, 0, 0; -1, 0, 0, 0; 0, 0, 1, 0; 0, 1, 0, 1] := by
  ext i j
  fin_cases i <;> fin_cases j <;>
    simp [XMMatrixTranslation, Matrix.mul_apply, Fin.sum_univ_four, Matrix.vecHead,
      Matrix.vecTail]

/-- The bind matrix of bone `2`, `RotationZ(-π/2) * Translation(0, 1, 0)`, entry by entry. -/
theorem bind_quarter_neg {α : Type} [Field α] :
    (!![0, -1, 0, 0; 1, 0, 0, 0; 0, 0, 1, 0; 0, 0, 0, 1] : XMMATRIX α) *
        XMMatrixTranslation 0 1 0 =
      !![0, -1, 0, 0; 1, 0, 0, 0; 0, 0, 1, 0; 0, 1, 0, 1] := by
  ext i j
  fin_cases i <;> fin_cases j <;>
    simp [XMMatrixTranslation, Matrix.mul_apply, Fin.sum_univ_four, Matrix.vecHead,
      Matrix.vecTail]

theorem bind_quarter_right_inverse {α : Type} [Field α] :
    (!![0, 1, 0, 0; -1, 0, 0, 0; 0, 0, 1, 0; 0, 1, 0, 1] : XMMATRIX α) *
        !![0, -1, 0, 0; 1, 0, 0, 0; 0, 0, 1, 0; -1, 0, 0, 1] = 1 := by
  ext i j
  fin_cases i <;> fin_cases j <;>
    simp [Matrix.mul_apply, Fin.sum_univ_four, Matrix.vecHead, Matrix.vecTail]

theorem bind_quarter_neg_right_inverse {α : Type} [Field α] :
    (!![0, -1, 0, 0; 1, 0, 0, 0; 0, 0, 1, 0; 0, 1, 0, 1] : XMMATRIX α) *
        !![0, 1, 0, 0; -1, 0, 0, 0; 0, 0, 1, 0; 1, 0, 0, 1] = 1 := by
  ext i j
  fin_cases i <;> fin_cases j <;>
    simp [Matrix.mul_apply, Fin.sum_univ_four, Matrix.vecHead, Matrix.vecTail]

theorem translation_right_inverse {α : Type} [Field α] (x y z : α) :
    XMMatrixTranslation x y z * XMMatrixTranslation (-x) (-y) (-z) = 1 := by
  ext i j
  fin_cases i <;> fin_cases j <;>
    simp [XMMatrixTranslation, Matrix.mul_apply, Fin.sum_univ_four, Matrix.vecHead,
      Matrix.vecTail]

/-- Local transform of bone `3` composed with the root transform of bone `1`. -/
theorem toRoot_bone3 {α : Type} [Field α] :
    (!![0, -1, 0, 0; 1, 0, 0, 0; 0, 0, 1, 0; 0, 1, 0, 1] : XMMATRIX α) *
        !![0, 1, 0, 0; -1, 0, 0, 0; 0, 0, 1, 0; 0, 1, 0, 1] =
      XMMatrixTranslation (-1) 1 0 := by
  ext i j
  fin_cases i <;> fin_cases j <;>
    simp [XMMatrixTranslation, Matrix.mul_apply, Fin.sum_univ_four, Matrix.vecHead,
      Matrix.vecTail]

/-- Local transform of bone `4` composed with the root transform of bone `2`. -/
theorem toRoot_bone4 {α : Type} [Field α] :
    (!![0, 1, 0, 0; -1, 0, 0, 0; 0, 0, 1, 0; 0, 1, 0, 1] : XMMATRIX α) *
        !![0, -1, 0, 0; 1, 0, 0, 0; 0, 0, 1, 0; 0, 1, 0, 1] =
      XMMatrixTranslation 1 1 0 := by
  ext i j
  fin_cases i <;> fin_cases j <;>
    simp [XMMatrixTranslation, Matrix.mul_apply, Fin.sum_univ_four, Matrix.vecHead,
      Matrix.vecTail]


theorem key0_toParent_root {α : Type} [Field α] (r : α) :
    (key0 r).ToParent 0 = some XMMatrixIdentity := by
  simp only [KeyFrame.ToParent, key0, List.getElem?_cons_zero, Option.bind_eq_bind,
    Option.some_bind, Option.pure_def, translationFromVector_eq, rotationQuaternion_identity,
    translation_zero, XMMatrixMultiply, XMMatrixIdentity, mul_one]

theorem key0_toParent_quarter {α : Type} [Field α] (r : α) (hr : 2 * r * r = 1) :
    (key0 r).ToParent 1 = some !![0, 1, 0, 0; -1, 0, 0, 0; 0, 0, 1, 0; 0, 1, 0, 1] ∧
    (key0 r).ToParent 2 = some !![0, -1, 0, 0; 1, 0, 0, 0; 0, 0, 1, 0; 0, 1, 0, 1] ∧
    (key0 r).ToParent 3 = some !![0, -1, 0, 0; 1, 0, 0, 0; 0, 0, 1, 0; 0, 1, 0, 1] ∧
    (key0 r).ToParent 4 = some !![0, 1, 0, 0; -1, 0, 0, 0; 0, 0, 1, 0; 0, 1, 0, 1] := by
  refine ⟨?_, ?_, ?_, ?_⟩ <;>
    simp only [KeyFrame.ToParent, key0, List.getElem?_cons_succ, List.getElem?_cons_zero,
      Option.bind_eq_bind, Option.some_bind, Option.pure_def, translationFromVector_eq,
      rotationQuaternion_quarterTurn r hr, rotationQuaternion_quarterTurn_neg r hr,
      XMMatrixMultiply, bind_quarter, bind_quarter_neg]

/-- C7: for the skeleton and the rest-pose keyframe `key[0]` built by
`BuildBoneAndAnimation`, with `r = sin (π/4) = cos (π/4)` exact (`2 * r * r = 1`), the pose
loop of `BoxApp::Update` computes as `ToRoot` the five bind matrices whose inverses are the
bone offsets, and `final[i]` is the identity matrix for each of the five bones. -/
theorem C7_bind_pose_gives_identity {α : Type} [Field α] (r : α) (hr : 2 * r * r = 1) :
    UpdatePose (buildSkeleton r) (key0 r) =
      some ([XMMatrixIdentity,
          XMMatrixMultiply (XMMatrixRotationZ (Angle.quarterTurn r)) (XMMatrixTranslation 0 1 0),
          XMMatrixMultiply (XMMatrixRotationZ (Angle.quarterTurn r).neg)
            (XMMatrixTranslation 0 1 0),
          XMMatrixTranslation (-1) 1 0, XMMatrixTranslation 1 1 0],
        [XMMatrixIdentity, XMMatrixIdentity, XMMatrixIdentity, XMMatrixIdentity,
          XMMatrixIdentity]) := by
  have hB1 : XMMatrixMultiply (XMMatrixRotationZ (Angle.quarterTurn r))
      (XMMatrixTranslation 0 1 0) = !![0, 1, 0, 0; -1, 0, 0, 0; 0, 0, 1, 0; 0, 1, 0, 1] := by
    rw [XMMatrixMultiply, rotationZ_quarterTurn r hr, bind_quarter]
  have hB2 : XMMatrixMultiply (XMMatrixRotationZ (Angle.quarterTurn r).neg)
      (XMMatrixTranslation 0 1 0) = !![0, -1, 0, 0; 1, 0, 0, 0; 0, 0, 1, 0; 0, 1, 0, 1] := by
    rw [XMMatrixMultiply, rotationZ_quarterTurn_neg r hr, bind_quarter_neg]
  obtain ⟨hL1, hL2, hL3, hL4⟩ := key0_toParent_quarter r hr
  have hL0 := key0_toParent_root r
  have s0 : poseStep (buildSkeleton r) (key0 r) 0 [] =
      some (XMMatrixIdentity, XMMatrixIdentity) := by
    rw [poseStep_zero (buildSkeleton r) (key0 r) [] (-1) (boneOfBind XMMatrixIdentity)
      XMMatrixIdentity (by simp [buildSkeleton]) (by simp [buildSkeleton]) hL0,
      final_of_bind XMMatrixIdentity 1 (mul_one _)]
  have s1 : poseStep (buildSkeleton r) (key0 r) 1 [XMMatrixIdentity] =
      some (!![0, 1, 0, 0; -1, 0, 0, 0; 0, 0, 1, 0; 0, 1, 0, 1], XMMatrixIdentity) := by
    rw [poseStep_succ (buildSkeleton r) (key0 r) 1 _ 0
      (boneOfBind (XMMatrixMultiply (XMMatrixRotationZ (Angle.quarterTurn r))
        (XMMatrixTranslation 0 1 0))) _ XMMatrixIdentity
      (by decide) (by simp [buildSkeleton]) (by simp [buildSkeleton]) hL1 (by simp [getAt]),
      hB1]
    have h1 : XMMatrixMultiply (!![0, 1, 0, 0; -1, 0, 0, 0; 0, 0, 1, 0; 0, 1, 0, 1] : XMMATRIX α)
        XMMatrixIdentity = !![0, 1, 0, 0; -1, 0, 0, 0; 0, 0, 1, 0; 0, 1, 0, 1] := mul_one _
    rw [h1, final_of_bind _ _ bind_quarter_right_inverse]
  have s2 : poseStep (buildSkeleton r) (key0 r) 2
      [XMMatrixIdentity, !![0, 1, 0, 0; -1, 0, 0, 0; 0, 0, 1, 0; 0, 1, 0, 1]] =
      some (!![0, -1, 0, 0; 1, 0, 0, 0; 0, 0, 1, 0; 0, 1, 0, 1], XMMatrixIdentity) := by
    rw [poseStep_succ (buildSkeleton r) (key0 r) 2 _ 0
      (boneOfBind (XMMatrixMultiply (XMMatrixRotationZ (Angle.quarterTurn r).neg)
        (XMMatrixTranslation 0 1 0))) _ XMMatrixIdentity
      (by decide) (by simp [buildSkeleton]) (by simp [buildSkeleton]) hL2 (by simp [getAt]),
      hB2]
    have h1 : XMMatrixMultiply (!![0, -1, 0, 0; 1, 0, 0, 0; 0, 0, 1, 0; 0, 1, 0, 1] : XMMATRIX α)
        XMMatrixIdentity = !![0, -1, 0, 0; 1, 0, 0, 0; 0, 0, 1, 0; 0, 1, 0, 1] := mul_one _
    rw [h1, final_of_bind _ _ bind_quarter_neg_right_inverse]
  have s3 : poseStep (buildSkeleton r) (key0 r) 3
      [XMMatrixIdentity, !![0, 1, 0, 0; -1, 0, 0, 0; 0, 0, 1, 0; 0, 1, 0, 1],
        !![0, -1, 0, 0; 1, 0, 0, 0; 0, 0, 1, 0; 0, 1, 0, 1]] =
      some (XMMatrixTranslation (-1) 1 0, XMMatrixIdentity) := by
    rw [poseStep_succ (buildSkeleton r) (key0 r) 3 _ 1
      (boneOfBind (XMMatrixTranslation (-1) 1 0)) _
      !![0, 1, 0, 0; -1, 0, 0, 0; 0, 0, 1, 0; 0, 1, 0, 1] (by decide)
      (by simp [buildSkeleton]) (by simp [buildSkeleton]) hL3 (by simp [getAt])]
    have h1 : XMMatrixMultiply (!![0, -1, 0, 0; 1, 0, 0, 0; 0, 0, 1, 0; 0, 1, 0, 1] : XMMATRIX α)
        !![0, 1, 0, 0; -1, 0, 0, 0; 0, 0, 1, 0; 0, 1, 0, 1] = XMMatrixTranslation (-1) 1 0 :=
      toRoot_bone3
    rw [h1, final_of_bind _ _ (translation_right_inverse (-1) 1 0)]
  have s4 : poseStep (buildSkeleton r) (key0 r) 4
      [XMMatrixIdentity, !![0, 1, 0, 0; -1, 0, 0, 0; 0, 0, 1, 0; 0, 1, 0, 1],
        !![0, -1, 0, 0; 1, 0, 0, 0; 0, 0, 1, 0; 0, 1, 0, 1], XMMatrixTranslation (-1) 1 0] =
      some (XMMatrixTranslation 1 1 0, XMMatrixIdentity) := by
    rw [poseStep_succ (buildSkeleton r) (key0 r) 4 _ 2
      (boneOfBind (XMMatrixTranslation 1 1 0)) _
      !![0, -1, 0, 0; 1, 0, 0, 0; 0, 0, 1, 0; 0, 1, 0, 1] (by decide)
      (by simp [buildSkeleton]) (by simp [buildSkeleton]) hL4 (by simp [getAt])]
    have h1 : XMMatrixMultiply (!![0, 1, 0, 0; -1, 0, 0, 0; 0, 0, 1, 0; 0, 1, 0, 1] : XMMATRIX α)
        !![0, -1, 0, 0; 1, 0, 0, 0; 0, 0, 1, 0; 0, 1, 0, 1] = XMMatrixTranslation 1 1 0 :=
      toRoot_bone4
    rw [h1, final_of_bind _ _ (translation_right_inverse 1 1 0)]
  rw [hB1, hB2]
  simp only [UpdatePose, poseLoop, List.nil_append, List.cons_append, s0, s1, s2, s3, s4]

/-- C7 over the real numbers, with `r = √2 / 2`. -/
theorem C7_bind_pose_gives_identity_witness :
    2 * (Real.sqrt 2 / 2) * (Real.sqrt 2 / 2) = 1 ∧
    UpdatePose (buildSkeleton (Real.sqrt 2 / 2)) (key0 (Real.sqrt 2 / 2)) =
      some ([XMMatrixIdentity,
          XMMatrixMultiply (XMMatrixRotationZ (Angle.quarterTurn (Real.sqrt 2 / 2)))
            (XMMatrixTranslation 0 1 0),
          XMMatrixMultiply (XMMatrixRotationZ (Angle.quarterTurn (Real.sqrt 2 / 2)).neg)
            (XMMatrixTranslation 0 1 0),
          XMMatrixTranslation (-1) 1 0, XMMatrixTranslation 1 1 0],
        [XMMatrixIdentity, XMMatrixIdentity, XMMatrixIdentity, XMMatrixIdentity,
          XMMatrixIdentity]) := by
  have hr : 2 * (Real.sqrt 2 / 2) * (Real.sqrt 2 / 2) = 1 := by
    have h := Real.mul_self_sqrt (show (0 : ℝ) ≤ 2 by norm_num)
    linarith
  exact ⟨hr, C7_bind_pose_gives_identity (Real.sqrt 2 / 2) hr⟩

/-! ## Further properties of sampling and of `KeyFrame::ToParent` -/

/-- C11: for a keyframe whose bone `i` has the quaternion `q` and the translation `t`,
`ToParent(i)` is the product `R * T` of the rotation matrix of `q` (left factor) and the
translation matrix of `t`. Its row `3` is `(t.x, t.y, t.z, 1)`, the translation itself, and
a point `p` (row vector with `w = 1`) is sent to its image under `R` plus `t`: rotation
first, translation second. In the opposite order `T * R` the row `3` would be the rotated
translation, as the keyframe `keyB` (half turn about Z, translation `(2, 4, 6)`) shows. -/
theorem C11_to_parent_rotates_then_translates {α : Type} [Field α] (k : KeyFrame α) (i : ℕ)
    (q t : XMVECTOR α) (hq : k.Quaternion[i]? = some q) (ht : k.Translation[i]? = some t) :
    (∃ M, k.ToParent i = some M ∧
      M = XMMatrixRotationQuaternion q * XMMatrixTranslationFromVector t ∧
      (M 3 0 = t.x ∧ M 3 1 = t.y ∧ M 3 2 = t.z ∧ M 3 3 = 1) ∧
      ∀ px py pz : α, Matrix.vecMul ![px, py, pz, 1] M =
        Matrix.vecMul ![px, py, pz, 1] (XMMatrixRotationQuaternion q) + ![t.x, t.y, t.z, 0]) ∧
    (∃ M : XMMATRIX ℚ, keyB.ToParent 0 = some M ∧ M 3 0 = 2 ∧ M 3 1 = 4 ∧
      (XMMatrixTranslationFromVector (XMVectorSet 2 4 6 1) *
        XMMatrixRotationQuaternion (XMVectorSet 0 0 1 0) : XMMATRIX ℚ) 3 0 = -2 ∧
      (XMMatrixTranslationFromVector (XMVectorSet 2 4 6 1) *
        XMMatrixRotationQuaternion (XMVectorSet 0 0 1 0) : XMMATRIX ℚ) 3 1 = -4) := by
  constructor
  · refine ⟨XMMatrixRotationQuaternion q * XMMatrixTranslationFromVector t, ?_, rfl, ?_, ?_⟩
    · simp [KeyFrame.ToParent, hq, ht, XMMatrixMultiply]
    · refine ⟨?_, ?_, ?_, ?_⟩ <;>
        simp [XMMatrixRotationQuaternion, XMMatrixTranslationFromVector, Matrix.mul_apply,
          Fin.sum_univ_four, Matrix.vecHead, Matrix.vecTail]
    · intro px py pz
      ext j
      fin_cases j <;>
        simp [XMMatrixRotationQuaternion, XMMatrixTranslationFromVector, Matrix.vecMul,
          Matrix.dotProduct, Matrix.mul_apply, Fin.sum_univ_four, Matrix.vecHead,
          Matrix.vecTail] <;>
        ring
  · refine ⟨_, rfl, ?_, ?_, ?_, ?_⟩ <;>
      norm_num [keyB, XMVectorSet, XMMatrixMultiply, XMMatrixRotationQuaternion,
        XMMatrixTranslationFromVector, Matrix.mul_apply, Fin.sum_univ_four, Matrix.vecHead,
        Matrix.vecTail]

/-- C11 at a concrete input: bone `0` of `keyB` (half turn about Z, translation
`(2, 4, 6)`); the translation row is `(2, 4, 6)` and the point `(1, 0, 0)` goes to
`(-1, 0, 0) + (2, 4, 6) = (1, 4, 6)`. -/
theorem C11_to_parent_rotates_then_translates_witness :
    keyB.Quaternion[0]? = some (XMVectorSet 0 0 1 0) ∧
    keyB.Translation[0]? = some (XMVectorSet 2 4 6 1) ∧
    ∃ M : XMMATRIX ℚ, keyB.ToParent 0 = some M ∧ M 3 0 = 2 ∧ M 3 1 = 4 ∧ M 3 2 = 6 ∧
      Matrix.vecMul ![1, 0, 0, 1] M = ![1, 4, 6, 1] := by
  obtain ⟨⟨M, hM, -, ⟨r0, r1, r2, -⟩, hp⟩, -⟩ :=
    C11_to_parent_rotates_then_translates keyB 0 (XMVectorSet 0 0 1 0) (XMVectorSet 2 4 6 1)
      rfl rfl
  refine ⟨rfl, rfl, M, hM, r0, r1, r2, ?_⟩
  rw [hp 1 0 0]
  ext j
  fin_cases j <;>
    norm_num [XMVectorSet, XMMatrixRotationQuaternion, Matrix.vecMul, Matrix.dotProduct,
      Fin.sum_univ_four, Matrix.vecHead, Matrix.vecTail]

end BoneAnimation
